import Mathlib

set_option linter.unusedVariables false

/-!
Verification of the ScholAuxil backend (src/app.py): data model for
repositories and papers, the storage-path discipline for uploaded files,
the extraction dispatch of the chat/upload endpoints, and the HTTP
handlers that create, read, update and delete repositories and papers.

Python strings are modelled as Lean `String`; machine paths are modelled
as root-relative strings whose resolution is computed over their
slash-separated segments.  The SQLAlchemy session is modelled by explicit
state passing: a handler maps a database state to a response paired with
the committed database state (an uncommitted mutation that is rolled back
at request teardown leaves the state unchanged).
-/

namespace ScholAuxil

/-- python str.strip() with no argument: remove whitespace from both
ends (python's whitespace set restricted to the ascii characters Lean's
Char.isWhitespace covers). -/
def pyStrip (s : String) : String :=
  String.mk (((s.data.dropWhile Char.isWhitespace).reverse.dropWhile Char.isWhitespace).reverse)

/-- python str.lower() (ascii case mapping). -/
def lowerStr (s : String) : String :=
  String.mk (s.data.map Char.toLower)

/-- Whether the first list starts with the second (python str.startswith). -/
def listHasPre : List Char → List Char → Bool
  | _, [] => true
  | [], _ :: _ => false
  | c :: t, p :: ps => c == p && listHasPre t ps

/-- Characters kept by werkzeug's ascii strip regex in secure_filename:
the class is A-Za-z0-9 plus underscore, dot and dash. -/
def sfKeep (c : Char) : Bool :=
  c.isAlphanum || c == '_' || c == '.' || c == '-'

/-- Characters removed from both ends by the final strip in
werkzeug's secure_filename: dot and underscore. -/
def stripDotUnd (c : Char) : Bool :=
  c == '.' || c == '_'

/-- Python str.split() with no argument: split on runs of whitespace,
dropping empty pieces.  The accumulator holds the current piece reversed. -/
def splitWsAux : List Char → List Char → List (List Char)
  | [], acc => if acc = [] then [] else [acc.reverse]
  | c :: t, acc =>
    if c.isWhitespace then
      if acc = [] then splitWsAux t [] else acc.reverse :: splitWsAux t []
    else
      splitWsAux t (c :: acc)

/-- werkzeug.utils.secure_filename, modelled on the posix branch
(os.sep is the slash, os.path.altsep is None, and NFKD normalization is
the identity on the ascii characters that survive the ascii encode):
drop non-ascii characters, replace the separator with a space, join the
whitespace-split pieces with an underscore, delete every character
outside A-Za-z0-9_.- and strip dots and underscores from both ends.
The special windows device-name branch is not reachable on posix. -/
def secureFilename (s : String) : String :=
  let ascii := s.data.filter (fun c => c.toNat < 128)
  let spaced := ascii.map (fun c => if c == '/' then ' ' else c)
  let joined := List.intercalate ['_'] (splitWsAux spaced [])
  let kept := joined.filter sfKeep
  let core := ((kept.dropWhile stripDotUnd).reverse.dropWhile stripDotUnd).reverse
  String.mk core

/-- Split a character list at every slash, keeping empty segments, so that
the result lists the slash-separated components of a path. -/
def splitSlash : List Char → List (List Char)
  | [] => [[]]
  | c :: t =>
    if c = '/' then [] :: splitSlash t
    else
      match splitSlash t with
      | [] => [[c]]
      | s :: rest => (c :: s) :: rest

/-- Resolution of a root-relative segment list: empty and dot segments are
skipped, a dot-dot segment pops one level, and popping at depth zero means
the path has escaped above the root. -/
def escAux : List (List Char) → Nat → Bool
  | [], _ => false
  | s :: rest, d =>
    if s = [] ∨ s = ['.'] then escAux rest d
    else if s = ['.', '.'] then
      if d = 0 then true else escAux rest (d - 1)
    else escAux rest (d + 1)

/-- A root-relative path string escapes the storage root iff resolving its
slash-separated segments pops above the root at some point. -/
def escapes (s : String) : Bool :=
  escAux (splitSlash s.data) 0

/-- The text after the last dot of a string: python
s.rsplit(Chr dot, 1)[1] when the string contains a dot. -/
def extAfterLastDot (s : String) : String :=
  String.mk ((s.data.reverse.takeWhile (fun c => c != '.')).reverse)

/-- ALLOWED_EXTENSIONS from app.py line 28. -/
def ALLOWED_EXTENSIONS : List String := ["pdf", "txt", "doc", "docx"]

/-- allowed_file from app.py lines 124-126: the filename contains a dot and
the lowercased text after the last dot is in ALLOWED_EXTENSIONS. -/
def allowed_file (filename : String) : Bool :=
  filename.data.contains '.' &&
    ALLOWED_EXTENSIONS.contains (lowerStr (extAfterLastDot filename))

/-- Decimal digits of a natural number, most significant first, with an
explicit fuel so the recursion is structural; fuel n + 1 always
suffices since the value shrinks by a factor of ten each step. -/
def natDigitsAux : Nat → Nat → List Char
  | _, 0 => []
  | n, fuel + 1 =>
    if n < 10 then [Nat.digitChar n]
    else natDigitsAux (n / 10) fuel ++ [Nat.digitChar (n % 10)]

/-- python str applied to a non-negative int: its decimal digits. -/
def natDigits (n : Nat) : List Char :=
  natDigitsAux n (n + 1)

/-- python str on a non-negative int. -/
def pyStr (n : Nat) : String :=
  String.mk (natDigits n)

/-- Parse a run of decimal digits; none when empty or a non-digit occurs. -/
def digitsToNat (l : List Char) : Option Nat :=
  if l ≠ [] ∧ l.all Char.isDigit then
    some (l.foldl (fun acc c => acc * 10 + (c.toNat - 48)) 0)
  else none

/-- python int applied to a string: strip whitespace, allow one optional
sign, then require a non-empty run of decimal digits, else ValueError
(modelled as none).  Underscore digit grouping is not modelled. -/
def pyParseInt (s : String) : Option Int :=
  match (pyStrip s).data with
  | [] => none
  | '+' :: rest => (digitsToNat rest).map Int.ofNat
  | '-' :: rest => (digitsToNat rest).map (fun n => -(n : Int))
  | l => (digitsToNat l).map Int.ofNat

/-- os.path.splitext(s)[0] for a bare filename (no slash): cut at the last
dot unless every character before that dot is itself a dot, in which case
the whole name is the stem. -/
def pyStem (s : String) : String :=
  let l := s.data
  let tailLen := (l.reverse.takeWhile (fun c => c != '.')).length
  if tailLen == l.length then s
  else
    let stemLen := l.length - tailLen - 1
    if (l.take stemLen).all (fun c => c == '.') then s
    else String.mk (l.take stemLen)

/-- posixpath.split: the tail is everything after the last slash and the
head is everything before it, with trailing slashes stripped from the head
unless the head consists only of slashes. -/
def pySplitPath (s : String) : String × String :=
  let l := s.data
  let tl := (l.reverse.takeWhile (fun c => c != '/')).reverse
  let head0 := l.take (l.length - tl.length)
  let head :=
    if head0 ≠ [] ∧ head0.any (fun c => c != '/') then
      ((head0.reverse.dropWhile (fun c => c == '/')).reverse)
    else head0
  (String.mk head, String.mk tl)

/-- os.path.dirname. -/
def pyDirname (s : String) : String := (pySplitPath s).1

/-- os.path.basename. -/
def pyBasename (s : String) : String := (pySplitPath s).2

/-- The checks werkzeug safe_join applies to each joined component (posix:
no alternative separator, and normpath leaves a separator-free component
unchanged): reject an absolute component, a bare dot-dot, or a component
starting with dot-dot-slash. -/
def safeJoinRejects (fn : String) : Bool :=
  listHasPre fn.data (("/").data) || fn == ".." || listHasPre fn.data (("../").data)

/-- The stored relative path a paper upload records and writes under the
storage root (app.py lines 329-339):
os.path.join(str(repo_id), timestamp + underscore + secure_filename(name)). -/
def storedRelPath (repoId : Nat) (ts fn : String) : String :=
  pyStr repoId ++ "/" ++ ts ++ "_" ++ secureFilename fn

/-- Outcome of the file-serving route: either werkzeug safe_join refuses,
or the file at the given root-relative location is served. -/
inductive ServeResult
  | refused
  | served (rel : String)
deriving DecidableEq

/-- api_serve_paper from app.py lines 393-399: split the requested path
into directory and final component, join the storage root with the
directory without validation, and let send_from_directory serve the final
component, whose safe_join checks apply to that component only. -/
def api_serve_paper (fp : String) : ServeResult :=
  let dir := pyDirname fp
  let fn := pyBasename fp
  if safeJoinRejects fn then ServeResult.refused
  else ServeResult.served (if dir == "" then fn else dir ++ "/" ++ fn)

/-- A Paper row (app.py lines 78-100).  Timestamps are modelled as opaque
naturals; last_opened and last_page_seen are nullable columns. -/
structure Paper where
  id : Nat
  title : String
  original_filename : String
  filepath : String
  notes : Option String
  last_opened : Option Nat
  last_page_seen : Option Int
  repository_id : Nat
deriving DecidableEq

/-- A Repository row (app.py lines 62-76); created_at is not modelled. -/
structure Repository where
  id : Nat
  name : String
  user_id : String
deriving DecidableEq

/-- The persistent state: the two tables plus the set of files present
under the storage root, each named by its root-relative stored path. -/
structure DB where
  repos : List Repository
  papers : List Paper
  files : List String
deriving DecidableEq

/-- HTTP status outcomes of the handlers. -/
inductive Resp
  | ok200
  | created201
  | badRequest400
  | unauthorized403
  | notFound404
  | conflict409
  | serverError500
deriving DecidableEq

/-- The JSON values the paper-update handler can see in a field: null, a
string, or an integer (other JSON kinds are not modelled). -/
inductive JVal
  | null
  | jstr (s : String)
  | jint (n : Int)
deriving DecidableEq

/-- python int applied to a JSON value: an int is itself, a string is
parsed or raises ValueError (none).  null is checked before the call in
the handler and never reaches int. -/
def pyIntOfJVal : JVal → Option Int
  | JVal.null => none
  | JVal.jstr s => pyParseInt s
  | JVal.jint n => some n

/-- Next autoincrement id for the papers table. -/
def freshPaperId (db : DB) : Nat :=
  db.papers.foldl (fun m p => max m p.id) 0 + 1

/-- Next autoincrement id for the repositories table. -/
def freshRepoId (db : DB) : Nat :=
  db.repos.foldl (fun m r => max m r.id) 0 + 1

/-- Replace the paper with the given id (commit of a mutated row). -/
def commitPaper (db : DB) (pid : Nat) (p : Paper) : DB :=
  { db with papers := db.papers.map (fun q => if q.id == pid then p else q) }

/-- create_repository from app.py lines 261-285: strip the name, reject an
empty result, reject when the caller already owns a repository of that
name, otherwise insert and commit. -/
def create_repository (caller : String) (db : DB) (rawName : String) : Resp × DB :=
  let name := pyStrip rawName
  if name == "" then (Resp.badRequest400, db)
  else if db.repos.any (fun r => r.name == name && r.user_id == caller) then
    (Resp.conflict409, db)
  else
    (Resp.created201,
      { db with repos := db.repos ++ [{ id := freshRepoId db, name := name, user_id := caller }] })

/-- get_repository from app.py lines 287-292: get_or_404 on the id; the
caller identity is available from the auth decorator but never consulted. -/
def get_repository (caller : String) (db : DB) (rid : Nat) : Resp × DB :=
  match db.repos.find? (fun r => r.id == rid) with
  | none => (Resp.notFound404, db)
  | some _ => (Resp.ok200, db)

/-- api_delete_repository from app.py lines 299-306: get_or_404, then
db.session.delete(repo) whose cascade (all, delete-orphan, line 67)
removes the repository row and every owned paper row; no ownership check
is made and no filesystem operation is performed. -/
def api_delete_repository (caller : String) (db : DB) (rid : Nat) : Resp × DB :=
  match db.repos.find? (fun r => r.id == rid) with
  | none => (Resp.notFound404, db)
  | some _ =>
    (Resp.ok200,
      { db with repos := db.repos.filter (fun r => r.id != rid),
                papers := db.papers.filter (fun p => p.repository_id != rid) })

/-- delete_repository from app.py lines 518-526: get_or_404, 403 when the
stored owner differs from the caller, otherwise the same cascading row
delete; again no filesystem operation. -/
def delete_repository (caller : String) (db : DB) (rid : Nat) : Resp × DB :=
  match db.repos.find? (fun r => r.id == rid) with
  | none => (Resp.notFound404, db)
  | some repo =>
    if repo.user_id != caller then (Resp.unauthorized403, db)
    else
      (Resp.ok200,
        { db with repos := db.repos.filter (fun r => r.id != rid),
                  papers := db.papers.filter (fun p => p.repository_id != rid) })

/-- api_upload_paper from app.py lines 308-347.  The nondeterministic
inputs are made explicit: ts is the strftime timestamp (digits only) and
saveOk/commitOk inject a storage fault in file.save and a metadata fault
in db.session.commit.  On a save fault nothing was written and the session
rollback leaves the state unchanged; on a commit fault the rollback drops
the pending paper row but the file written by file.save stays on disk. -/
def api_upload_paper (caller : String) (db : DB) (rid : Nat)
    (origFilename title ts : String) (saveOk commitOk : Bool) : Resp × DB :=
  match db.repos.find? (fun r => r.id == rid) with
  | none => (Resp.notFound404, db)
  | some repo =>
    if origFilename == "" then (Resp.badRequest400, db)
    else
      let t := if pyStrip title == "" then pyStem origFilename else pyStrip title
      if !allowed_file origFilename then (Resp.badRequest400, db)
      else
        let rel := storedRelPath rid ts origFilename
        if !saveOk then (Resp.serverError500, db)
        else
          let files1 := db.files ++ [rel]
          if !commitOk then (Resp.serverError500, { db with files := files1 })
          else
            let p : Paper :=
              { id := freshPaperId db, title := t,
                original_filename := secureFilename origFilename,
                filepath := pyStr rid ++ "/" ++ ts ++ "_" ++ secureFilename origFilename,
                notes := none, last_opened := none, last_page_seen := some 0,
                repository_id := repo.id }
            (Resp.created201, { db with files := files1, papers := db.papers ++ [p] })

/-- GET branch of api_paper_detail (app.py lines 355-359): get_or_404,
refresh last_opened to the current time and commit. -/
def api_paper_detail_get (caller : String) (now : Nat) (db : DB) (pid : Nat) : Resp × DB :=
  match db.papers.find? (fun p => p.id == pid) with
  | none => (Resp.notFound404, db)
  | some paper =>
    (Resp.ok200, commitPaper db pid { paper with last_opened := some now })

/-- PUT branch of api_paper_detail (app.py lines 361-372): assign notes
when the field is present, then parse last_page_seen when present — null
stores null, an unparsable value returns 400 before any commit (the
request-scoped session is discarded at teardown, so the uncommitted notes
assignment is rolled back and the stored row is unchanged) — and commit. -/
def api_paper_detail_put (caller : String) (db : DB) (pid : Nat)
    (notesF : Option (Option String)) (lpsF : Option JVal) : Resp × DB :=
  match db.papers.find? (fun p => p.id == pid) with
  | none => (Resp.notFound404, db)
  | some paper =>
    let paper1 := match notesF with
      | some v => { paper with notes := v }
      | none => paper
    match lpsF with
    | none => (Resp.ok200, commitPaper db pid paper1)
    | some JVal.null => (Resp.ok200, commitPaper db pid { paper1 with last_page_seen := none })
    | some v =>
      match pyIntOfJVal v with
      | some n => (Resp.ok200, commitPaper db pid { paper1 with last_page_seen := some n })
      | none => (Resp.badRequest400, db)

/-- api_delete_paper from app.py lines 374-391: get_or_404, remove the
physical file when present (a missing file is not an error), delete the
row and commit. -/
def api_delete_paper (caller : String) (db : DB) (pid : Nat) : Resp × DB :=
  match db.papers.find? (fun p => p.id == pid) with
  | none => (Resp.notFound404, db)
  | some paper =>
    (Resp.ok200,
      { db with files := db.files.filter (fun f => f != paper.filepath),
                papers := db.papers.filter (fun q => q.id != pid) })

/-- Outcomes of the chat upload_file endpoint (app.py lines 188-225). -/
inductive ExtractOutcome
  | noFilePart
  | noFilename
  | notAllowed
  | pdfText
  | docxText
  | imageText
  | unsupportedType
  | extractionFault
  | internalFault
deriving DecidableEq

/-- upload_file from app.py lines 188-225, paired with the list of
temporary files left under the upload folder when the request ends.
Control flow of the source: reject a missing part or empty name; reject a
name failing allowed_file; otherwise save the file under its
secure_filename, take the extension after the last dot of the saved name
(an IndexError when the saved name lost its dot — this line runs outside
the try block, so the fault propagates with the file still on disk), then
dispatch pdf/docx/png-jpg-jpeg to the strategies; a successful strategy is
followed by os.remove, the unsupported-type return and the except-branch
return happen before any removal, so the saved file stays. -/
def upload_file (hasFilePart : Bool) (filename : String) (strategyOk : Bool) :
    ExtractOutcome × List String :=
  if !hasFilePart then (ExtractOutcome.noFilePart, [])
  else if filename == "" then (ExtractOutcome.noFilename, [])
  else if allowed_file filename then
    let fname := secureFilename filename
    if !(fname.data.contains '.') then (ExtractOutcome.internalFault, [fname])
    else
      let ext := lowerStr (extAfterLastDot fname)
      if ext == "pdf" then
        if strategyOk then (ExtractOutcome.pdfText, []) else (ExtractOutcome.extractionFault, [fname])
      else if ext == "docx" then
        if strategyOk then (ExtractOutcome.docxText, []) else (ExtractOutcome.extractionFault, [fname])
      else if ext == "png" || ext == "jpg" || ext == "jpeg" then
        if strategyOk then (ExtractOutcome.imageText, []) else (ExtractOutcome.extractionFault, [fname])
      else (ExtractOutcome.unsupportedType, [fname])
  else (ExtractOutcome.notAllowed, [])

/-- A single paper has the last-page-seen shape the spec claims: absent
or a non-negative integer. -/
def lpsOk (p : Paper) : Bool :=
  match p.last_page_seen with
  | none => true
  | some n => decide (0 ≤ n)

/-- The last-page-seen invariant claimed in the spec: absent or a
non-negative integer, over every paper of a state. -/
def lpsInvB (db : DB) : Bool :=
  db.papers.all lpsOk

/-! ## Helper lemmas -/

/-- Every character of a secure_filename result is in the kept class. -/
theorem sf_chars {s : String} : ∀ c ∈ (secureFilename s).data, sfKeep c = true := by
  intro c hc
  simp only [secureFilename, String.data] at hc
  have h1 := List.mem_reverse.mp hc
  have h2 := List.dropWhile_subset _ h1
  have h3 := List.mem_reverse.mp h2
  have h4 := List.dropWhile_subset _ h3
  exact (List.mem_filter.mp h4).2

/-- secure_filename never emits a slash. -/
theorem sf_no_slash (s : String) : '/' ∉ (secureFilename s).data := by
  intro h
  exact absurd (sf_chars '/' h) (by decide)

/-- Decimal digit lists contain only digit characters. -/
theorem natDigitsAux_digits :
    ∀ fuel n, ∀ c ∈ natDigitsAux n fuel, c.isDigit = true := by
  intro fuel
  induction fuel with
  | zero => intro n c hc; simp [natDigitsAux] at hc
  | succ k ih =>
    intro n c hc
    rw [natDigitsAux] at hc
    split at hc
    · next h =>
      simp only [List.mem_singleton] at hc
      subst hc
      interval_cases n <;> decide
    · next h =>
      rcases List.mem_append.mp hc with h1 | h2
      · exact ih _ c h1
      · simp only [List.mem_singleton] at h2
        subst h2
        have : n % 10 < 10 := Nat.mod_lt _ (by omega)
        interval_cases h : (n % 10) <;> decide

/-- python str of a non-negative int consists of digit characters. -/
theorem natDigits_digits (n : Nat) : ∀ c ∈ natDigits n, c.isDigit = true :=
  natDigitsAux_digits (n + 1) n

/-- python str of a non-negative int is non-empty. -/
theorem natDigits_ne_nil (n : Nat) : natDigits n ≠ [] := by
  rw [natDigits, natDigitsAux]
  split
  · simp
  · simp

/-- A list of digit characters is not a traversal segment and has no slash. -/
theorem digit_seg_facts {l : List Char} (hd : ∀ c ∈ l, c.isDigit = true) :
    l ≠ ['.'] ∧ l ≠ ['.', '.'] ∧ '/' ∉ l := by
  refine ⟨?_, ?_, ?_⟩
  · intro e; subst e; exact absurd (hd '.' (by simp)) (by decide)
  · intro e; subst e; exact absurd (hd '.' (by simp)) (by decide)
  · intro h; exact absurd (hd '/' h) (by decide)

/-- A segment containing an underscore is not empty and not a traversal
segment. -/
theorem underscore_seg_facts {l : List Char} (h : '_' ∈ l) :
    l ≠ [] ∧ l ≠ ['.'] ∧ l ≠ ['.', '.'] := by
  refine ⟨?_, ?_, ?_⟩ <;> intro e <;> subst e
  · simp at h
  · rcases List.mem_singleton.mp h with h
    exact absurd h (by decide)
  · rcases List.mem_cons.mp h with h | h
    · exact absurd h (by decide)
    · rcases List.mem_singleton.mp h with h
      exact absurd h (by decide)

/-- splitSlash of a slash-free list is that single segment. -/
theorem splitSlash_no_slash {l : List Char} (h : '/' ∉ l) : splitSlash l = [l] := by
  induction l with
  | nil => rfl
  | cons c t ih =>
    have hc : ¬ c = '/' := fun e => h (e ▸ List.mem_cons_self c t)
    have ht : '/' ∉ t := fun m => h (List.mem_cons_of_mem _ m)
    rw [splitSlash, if_neg hc, ih ht]

/-- splitSlash distributes over the first slash after a slash-free head. -/
theorem splitSlash_append {a b : List Char} (h : '/' ∉ a) :
    splitSlash (a ++ '/' :: b) = a :: splitSlash b := by
  induction a with
  | nil => simp [splitSlash]
  | cons c t ih =>
    have hc : ¬ c = '/' := fun e => h (e ▸ List.mem_cons_self c t)
    have ht : '/' ∉ t := fun m => h (List.mem_cons_of_mem _ m)
    rw [List.cons_append, splitSlash, if_neg hc, ih ht]

/-- Resolving past a normal segment descends one level. -/
theorem escAux_step (s : List Char) (rest : List (List Char)) (d : Nat)
    (h1 : s ≠ []) (h2 : s ≠ ['.']) (h3 : s ≠ ['.', '.']) :
    escAux (s :: rest) d = escAux rest (d + 1) := by
  rw [escAux, if_neg (not_or.mpr ⟨h1, h2⟩), if_neg h3]

/-- The stored relative path an upload records never resolves outside the
storage root: its first segment is the decimal repository id and its
second segment carries the timestamp, an underscore and the sanitized
name, so no segment is empty, a dot or a dot-dot. -/
theorem storedRelPath_no_escape (repoId : Nat) (ts fn : String)
    (hts : ∀ c ∈ ts.data, c.isDigit = true) :
    escapes (storedRelPath repoId ts fn) = false := by
  have hseg1d := natDigits_digits repoId
  obtain ⟨h1dot, h1dots, h1sl⟩ := digit_seg_facts hseg1d
  have hu : '_' ∈ ts.data ++ '_' :: (secureFilename fn).data := by
    exact List.mem_append.mpr (Or.inr (List.mem_cons_self _ _))
  obtain ⟨h2ne, h2dot, h2dots⟩ := underscore_seg_facts hu
  have h2sl : '/' ∉ ts.data ++ '_' :: (secureFilename fn).data := by
    intro hmem
    rcases List.mem_append.mp hmem with h | h
    · exact absurd (hts '/' h) (by decide)
    · rcases List.mem_cons.mp h with h | h
      · exact absurd h (by decide)
      · exact sf_no_slash fn h
  have hdata : (storedRelPath repoId ts fn).data =
      natDigits repoId ++ '/' :: (ts.data ++ '_' :: (secureFilename fn).data) := by
    simp [storedRelPath, String.data_append, pyStr]
  rw [escapes, hdata, splitSlash_append h1sl, splitSlash_no_slash h2sl,
    escAux_step _ _ _ (natDigits_ne_nil repoId) h1dot h1dots,
    escAux_step _ _ _ h2ne h2dot h2dots]
  rfl

/-! ## Claim C2 -/

/-- C2 (counterexample): the claim fails as stated.  The file-serving
operation accepts the path ../../etc/passwd: werkzeug safe_join checks
only the final component (passwd), so the request is served, not refused,
and the served location resolves outside the storage root. -/
theorem serve_traversal_counterexample :
    api_serve_paper ("../../etc/passwd") = ServeResult.served ("../../etc/passwd") ∧
    escapes ("../../etc/passwd") = true :=
  ⟨rfl, rfl⟩

/-- C2 (amended): every stored path produced at upload (decimal repository
id, slash, digit timestamp, underscore, sanitized filename) resolves
inside the storage root, for any original filename including
traversal-laden ones; but the file-serving operation does not validate
the directory part of a requested path, so a request whose directory part
climbs with dot-dot segments resolves outside the root and is served
rather than refused. -/
theorem upload_paths_safe_but_serve_unchecked :
    (∀ (repoId : Nat) (ts fn : String), (∀ c ∈ ts.data, c.isDigit = true) →
      escapes (storedRelPath repoId ts fn) = false) ∧
    api_serve_paper ("../../etc/passwd") = ServeResult.served ("../../etc/passwd") ∧
    escapes ("../../etc/passwd") = true := by
  exact ⟨fun r ts fn h => storedRelPath_no_escape r ts fn h, rfl, rfl⟩

/-- C2 (witness): the safety half of the amended claim evaluated at
repository 7, a concrete strftime timestamp and the traversal filename
../../etc/passwd. -/
theorem upload_paths_safe_but_serve_unchecked_witness :
    escapes (storedRelPath 7 ("20240101000000000000") ("../../etc/passwd")) = false ∧
    api_serve_paper ("../../etc/passwd") = ServeResult.served ("../../etc/passwd") :=
  ⟨upload_paths_safe_but_serve_unchecked.1 7 ("20240101000000000000") ("../../etc/passwd")
      (by decide),
    upload_paths_safe_but_serve_unchecked.2.1⟩

/-! ## Claim C1 -/

/-- After the cascade removes every paper row of a repository, a lookup of
any of those papers by id finds nothing, provided paper ids are unique. -/
theorem find?_paper_none_after_cascade (papers : List Paper) (rid : Nat)
    (hnd : (papers.map Paper.id).Nodup)
    (p : Paper) (hp : p ∈ papers) (hpr : p.repository_id = rid) :
    (papers.filter (fun q => q.repository_id != rid)).find? (fun q => q.id == p.id) = none := by
  rw [List.find?_eq_none]
  intro q hq hbeq
  have hqmem := (List.mem_filter.mp hq).1
  have hqr := (List.mem_filter.mp hq).2
  simp only [bne_iff_ne, ne_eq] at hqr
  have hid : q.id = p.id := by simpa using hbeq
  have : q = p := List.inj_on_of_nodup_map hnd hqmem hp hid
  exact hqr (this ▸ hpr)

/-- C1 (counterexample): the claim fails as stated.  A repository with one
paper whose physical file is on disk: deleting the repository succeeds and
removes the rows, but the physical file is still under the storage root —
the handler performs no filesystem operation. -/
theorem repo_delete_keeps_file_counterexample :
    api_delete_repository ("u1")
      { repos := [{ id := 1, name := "Thesis", user_id := "u1" }],
        papers := [{ id := 1, title := "x", original_filename := "x.pdf",
                     filepath := "1/20240101000000000000_x.pdf", notes := none,
                     last_opened := none, last_page_seen := some 0, repository_id := 1 }],
        files := ["1/20240101000000000000_x.pdf"] } 1 =
    (Resp.ok200,
      { repos := [], papers := [], files := ["1/20240101000000000000_x.pdf"] }) :=
  rfl

/-- C1 (amended): deleting a repository that owns N papers removes the
repository row and all N paper metadata rows, and a subsequent get on the
repository or on any of those papers returns NotFound; the N physical
files are not removed from the storage root. -/
theorem repo_delete_cascades_rows_only
    (caller : String) (db : DB) (rid : Nat) (r : Repository)
    (hr : db.repos.find? (fun q => q.id == rid) = some r)
    (hnd : (db.papers.map Paper.id).Nodup) :
    (api_delete_repository caller db rid).1 = Resp.ok200 ∧
    (api_delete_repository caller db rid).2.papers =
      db.papers.filter (fun p => p.repository_id != rid) ∧
    (api_delete_repository caller db rid).2.files = db.files ∧
    (get_repository caller (api_delete_repository caller db rid).2 rid).1 = Resp.notFound404 ∧
    ∀ p ∈ db.papers, p.repository_id = rid →
      (api_paper_detail_get caller 0 (api_delete_repository caller db rid).2 p.id).1 =
        Resp.notFound404 := by
  have hdel : api_delete_repository caller db rid =
      (Resp.ok200, { db with repos := db.repos.filter (fun q => q.id != rid),
                             papers := db.papers.filter (fun p => p.repository_id != rid) }) := by
    unfold api_delete_repository
    rw [hr]
  have hfindr : (db.repos.filter (fun q => q.id != rid)).find? (fun q => q.id == rid) = none := by
    rw [List.find?_eq_none]
    intro q hq hbeq
    have hqr := (List.mem_filter.mp hq).2
    simp only [bne_iff_ne, ne_eq] at hqr
    exact hqr (by simpa using hbeq)
  refine ⟨by rw [hdel], by rw [hdel], by rw [hdel], ?_, ?_⟩
  · rw [hdel]
    unfold get_repository
    rw [hfindr]
  · intro p hp hpr
    rw [hdel]
    unfold api_paper_detail_get
    rw [find?_paper_none_after_cascade db.papers rid hnd p hp hpr]

/-- C1 (witness): the amended claim evaluated at the one-repository
one-paper state used above. -/
theorem repo_delete_cascades_rows_only_witness :
    (api_delete_repository ("u1")
      { repos := [{ id := 1, name := "Thesis", user_id := "u1" }],
        papers := [{ id := 1, title := "x", original_filename := "x.pdf",
                     filepath := "1/20240101000000000000_x.pdf", notes := none,
                     last_opened := none, last_page_seen := some 0, repository_id := 1 }],
        files := ["1/20240101000000000000_x.pdf"] } 1).2.files =
      ["1/20240101000000000000_x.pdf"] :=
  (repo_delete_cascades_rows_only "u1"
    { repos := [{ id := 1, name := "Thesis", user_id := "u1" }],
      papers := [{ id := 1, title := "x", original_filename := "x.pdf",
                   filepath := "1/20240101000000000000_x.pdf", notes := none,
                   last_opened := none, last_page_seen := some 0, repository_id := 1 }],
      files := ["1/20240101000000000000_x.pdf"] } 1
    { id := 1, name := "Thesis", user_id := "u1" } rfl (by decide)).2.2.1

/-! ## Claim C3 -/

/-- C3 (counterexample): the claim fails as stated.  A caller u2 who is
not the owner u1 deletes the repository through the
/api/repository/1/delete route: the handler returns 200 and removes the
repository, because that route never consults ownership. -/
theorem nonowner_delete_succeeds_counterexample :
    api_delete_repository ("u2")
      { repos := [{ id := 1, name := "Thesis", user_id := "u1" }],
        papers := [], files := [] } 1 =
    (Resp.ok200, { repos := [], papers := [], files := [] }) :=
  rfl

/-- C3 (amended): only the DELETE /api/repository/id route checks
ownership — a caller who is not the stored owner gets Unauthorized (403)
with the repository and its papers unchanged; the
/api/repository/id/delete route deletes the repository and its paper rows
for any authenticated caller without consulting ownership. -/
theorem owner_check_only_on_one_delete_route
    (caller : String) (db : DB) (rid : Nat) (r : Repository)
    (hr : db.repos.find? (fun q => q.id == rid) = some r)
    (hown : r.user_id ≠ caller) :
    delete_repository caller db rid = (Resp.unauthorized403, db) ∧
    (api_delete_repository caller db rid).1 = Resp.ok200 ∧
    (api_delete_repository caller db rid).2.repos =
      db.repos.filter (fun q => q.id != rid) ∧
    (api_delete_repository caller db rid).2.papers =
      db.papers.filter (fun p => p.repository_id != rid) := by
  have hne : (r.user_id != caller) = true := bne_iff_ne.mpr hown
  have hdel : api_delete_repository caller db rid =
      (Resp.ok200, { db with repos := db.repos.filter (fun q => q.id != rid),
                             papers := db.papers.filter (fun p => p.repository_id != rid) }) := by
    unfold api_delete_repository
    rw [hr]
  refine ⟨?_, by rw [hdel], by rw [hdel], by rw [hdel]⟩
  unfold delete_repository
  rw [hr]
  simp [hne]

/-- C3 (witness): the amended claim evaluated at a one-repository state
with owner u1 and caller u2. -/
theorem owner_check_only_on_one_delete_route_witness :
    delete_repository ("u2")
      { repos := [{ id := 1, name := "Thesis", user_id := "u1" }],
        papers := [], files := [] } 1 =
      (Resp.unauthorized403,
        { repos := [{ id := 1, name := "Thesis", user_id := "u1" }],
          papers := [], files := [] }) :=
  (owner_check_only_on_one_delete_route "u2"
    { repos := [{ id := 1, name := "Thesis", user_id := "u1" }],
      papers := [], files := [] } 1
    { id := 1, name := "Thesis", user_id := "u1" } rfl (by decide)).1

/-! ## Claim C4 -/

/-- C4 (counterexample): the claim fails as stated.  Uploading x.pdf into
repository 1 with the byte stream persisted and the metadata commit
failing: the handler rolls back the session (no paper row) but does not
remove the just-written file, which stays under the storage root. -/
theorem upload_commit_failure_keeps_file_counterexample :
    api_upload_paper ("u1")
      { repos := [{ id := 1, name := "R", user_id := "u1" }], papers := [], files := [] }
      1 ("x.pdf") "" ("20240101000000000000") true false =
    (Resp.serverError500,
      { repos := [{ id := 1, name := "R", user_id := "u1" }], papers := [],
        files := ["1/20240101000000000000_x.pdf"] }) :=
  rfl

/-- C4 (amended): on a storage failure the upload leaves no dangling
metadata row (and no file); on a metadata failure the pending row is
rolled back, but the just-written file is not removed and remains under
the storage root. -/
theorem upload_failure_asymmetry
    (caller : String) (db : DB) (rid : Nat) (fn title ts : String) (r : Repository)
    (hr : db.repos.find? (fun q => q.id == rid) = some r)
    (hfn : fn ≠ "")
    (hal : allowed_file fn = true) :
    (∀ commitOk, api_upload_paper caller db rid fn title ts false commitOk =
      (Resp.serverError500, db)) ∧
    (api_upload_paper caller db rid fn title ts true false).1 = Resp.serverError500 ∧
    (api_upload_paper caller db rid fn title ts true false).2.papers = db.papers ∧
    (api_upload_paper caller db rid fn title ts true false).2.repos = db.repos ∧
    (api_upload_paper caller db rid fn title ts true false).2.files =
      db.files ++ [storedRelPath rid ts fn] := by
  have hfb : (fn == "") = false := beq_eq_false_iff_ne.mpr hfn
  refine ⟨?_, ?_, ?_, ?_, ?_⟩ <;>
    · first
      | (intro commitOk
         unfold api_upload_paper
         rw [hr]
         simp [hfb, hal])
      | (unfold api_upload_paper
         rw [hr]
         simp [hfb, hal])

/-- C4 (witness): the amended claim evaluated at a one-repository state
with the upload of x.pdf. -/
theorem upload_failure_asymmetry_witness :
    api_upload_paper ("u1")
      { repos := [{ id := 1, name := "R", user_id := "u1" }], papers := [], files := [] }
      1 ("x.pdf") "" ("20240101000000000000") false true =
    (Resp.serverError500,
      { repos := [{ id := 1, name := "R", user_id := "u1" }], papers := [], files := [] }) :=
  (upload_failure_asymmetry "u1"
    { repos := [{ id := 1, name := "R", user_id := "u1" }], papers := [], files := [] }
    1 ("x.pdf") "" ("20240101000000000000")
    { id := 1, name := "R", user_id := "u1" } rfl (by decide) (by decide)).1 true

/-! ## Claim C5 -/

/-- C5 (confirmed): a paper update whose last_page_seen value is present,
non-null and does not parse as an integer returns 400 and leaves the
stored state entirely unchanged — including the notes column even when a
notes value was supplied in the same request, since the handler returns
before any commit and the request-scoped session is rolled back at
teardown. -/
theorem invalid_page_update_leaves_paper_unchanged
    (caller : String) (db : DB) (pid : Nat) (p : Paper)
    (notesF : Option (Option String)) (s : String)
    (hp : db.papers.find? (fun q => q.id == pid) = some p)
    (hs : pyParseInt s = none) :
    api_paper_detail_put caller db pid notesF (some (JVal.jstr s)) =
      (Resp.badRequest400, db) := by
  unfold api_paper_detail_put
  rw [hp]
  simp [pyIntOfJVal, hs]

/-- C5 (witness): updating paper 1 with notes new and last_page_seen abc
returns 400 and the state, notes column included, is unchanged. -/
theorem invalid_page_update_leaves_paper_unchanged_witness :
    api_paper_detail_put ("u1")
      { repos := [{ id := 1, name := "R", user_id := "u1" }],
        papers := [{ id := 1, title := "x", original_filename := "x.pdf",
                     filepath := "1/a_x.pdf", notes := some ("old"),
                     last_opened := none, last_page_seen := some 5, repository_id := 1 }],
        files := ["1/a_x.pdf"] }
      1 (some (some ("new"))) (some (JVal.jstr ("abc"))) =
    (Resp.badRequest400,
      { repos := [{ id := 1, name := "R", user_id := "u1" }],
        papers := [{ id := 1, title := "x", original_filename := "x.pdf",
                     filepath := "1/a_x.pdf", notes := some ("old"),
                     last_opened := none, last_page_seen := some 5, repository_id := 1 }],
        files := ["1/a_x.pdf"] }) :=
  invalid_page_update_leaves_paper_unchanged "u1"
    { repos := [{ id := 1, name := "R", user_id := "u1" }],
      papers := [{ id := 1, title := "x", original_filename := "x.pdf",
                   filepath := "1/a_x.pdf", notes := some ("old"),
                   last_opened := none, last_page_seen := some 5, repository_id := 1 }],
      files := ["1/a_x.pdf"] }
    1
    { id := 1, title := "x", original_filename := "x.pdf",
      filepath := "1/a_x.pdf", notes := some ("old"),
      last_opened := none, last_page_seen := some 5, repository_id := 1 }
    (some (some ("new"))) ("abc") rfl rfl

/-! ## Claim C6 -/

/-- python str.split() on a whitespace-free non-empty list yields the one
piece accumulated so far followed by that list. -/
theorem splitWsAux_no_ws {y : List Char} (hy : ∀ c ∈ y, c.isWhitespace = false)
    (hne : y ≠ []) : ∀ acc, splitWsAux y acc = [acc.reverse ++ y] := by
  induction y with
  | nil => exact absurd rfl hne
  | cons c t ih =>
    intro acc
    have hc : c.isWhitespace = false := hy c (List.mem_cons_self _ _)
    by_cases ht : t = []
    · subst ht
      simp [splitWsAux, hc]
    · rw [splitWsAux, hc]
      simp only [Bool.false_eq_true, if_false]
      rw [ih (fun d hd => hy d (List.mem_cons_of_mem _ hd)) ht (c :: acc)]
      simp

/-- Unfolding of List.intercalate over a head piece. -/
theorem intercalate_cons {s a : List Char} {rest : List (List Char)} (h : rest ≠ []) :
    List.intercalate s (a :: rest) = a ++ s ++ List.intercalate s rest := by
  cases rest with
  | nil => exact absurd rfl h
  | cons b r => simp [List.intercalate, List.intersperse_cons_cons]

/-- The underscore-join of the whitespace split keeps a whitespace-free
suffix of its input as a suffix of its output. -/
theorem intercalate_splitWs_suffix {y : List Char}
    (hy : ∀ c ∈ y, c.isWhitespace = false) (hne : y ≠ []) :
    ∀ (x acc : List Char),
      ∃ w, List.intercalate ['_'] (splitWsAux (x ++ y) acc) = w ++ y := by
  intro x
  induction x with
  | nil =>
    intro acc
    rw [List.nil_append, splitWsAux_no_ws hy hne acc]
    exact ⟨acc.reverse, by simp [List.intercalate]⟩
  | cons c x' ih =>
    intro acc
    rw [List.cons_append, splitWsAux]
    by_cases hc : c.isWhitespace = true
    · rw [hc]
      simp only [if_true]
      by_cases ha : acc = []
      · rw [if_pos ha]
        exact ih []
      · rw [if_neg ha]
        obtain ⟨w, hw⟩ := ih []
        have hrest : splitWsAux (x' ++ y) [] ≠ [] := by
          intro he
          rw [he] at hw
          simp [List.intercalate] at hw
          exact hne hw.2
        rw [intercalate_cons hrest, hw]
        exact ⟨acc.reverse ++ ['_'] ++ w, by simp⟩
    · rw [Bool.not_eq_true] at hc
      rw [hc]
      simp only [Bool.false_eq_true, if_false]
      exact ih (c :: acc)

/-- Mapping a function that fixes every element of a list is the identity. -/
theorem map_id_of {f : Char → Char} {l : List Char} (h : ∀ c ∈ l, f c = c) : l.map f = l := by
  induction l with
  | nil => rfl
  | cons c t ih =>
    rw [List.map_cons, h c (List.mem_cons_self _ _),
      ih (fun d hd => h d (List.mem_cons_of_mem _ hd))]

/-- The right strip of secure_filename is the identity on a list whose
suffix ends in a non-stripped character. -/
theorem rstrip_noop_suffix {z E : List Char} (hEne : E ≠ [])
    (hE : ∀ c ∈ E, stripDotUnd c = false) :
    ((z ++ E).reverse.dropWhile stripDotUnd).reverse = z ++ E := by
  obtain ⟨e1, r1, hEr⟩ : ∃ e1 r1, E.reverse = e1 :: r1 := by
    have h' : E.reverse ≠ [] := by simpa using hEne
    obtain ⟨a, b, hab⟩ := List.exists_cons_of_ne_nil h'
    exact ⟨a, b, hab⟩
  have he1 : e1 ∈ E := by
    rw [← List.mem_reverse, hEr]
    exact List.mem_cons_self _ _
  rw [List.reverse_append, hEr, List.cons_append, List.dropWhile_cons, hE e1 he1]
  simp only [Bool.false_eq_true, if_false]
  rw [← List.cons_append, ← hEr, ← List.reverse_append, List.reverse_reverse]

/-- The extension of a name of the form w dot E, with E dot-free, is E. -/
theorem ext_of_suffix {w E : List Char} (hE : ∀ c ∈ E, (c != '.') = true) :
    (extAfterLastDot (String.mk (w ++ '.' :: E))).data = E := by
  show ((w ++ '.' :: E).reverse.takeWhile (fun c => c != '.')).reverse = E
  rw [List.reverse_append, List.reverse_cons, List.append_assoc,
    List.takeWhile_append_of_pos (fun c hc => hE c (List.mem_reverse.mp hc)),
    List.singleton_append, List.takeWhile_cons]
  simp

/-- An ascii letter survives every stage of secure_filename: it is ascii,
kept by the character class, not whitespace, not end-stripped, and is
neither a slash nor a dot. -/
theorem ascii_letter_facts {c : Char}
    (h : (65 ≤ c.toNat ∧ c.toNat ≤ 90) ∨ (97 ≤ c.toNat ∧ c.toNat ≤ 122)) :
    c.toNat < 128 ∧ sfKeep c = true ∧ c.isWhitespace = false ∧ stripDotUnd c = false ∧
      c ≠ '/' ∧ c ≠ '.' := by
  have hne : ∀ (d : Char),
      ¬((65 ≤ d.toNat ∧ d.toNat ≤ 90) ∨ (97 ≤ d.toNat ∧ d.toNat ≤ 122)) → c ≠ d := by
    intro d hd he
    subst he
    exact hd h
  have halpha : c.isAlpha = true := by
    simp only [Char.isAlpha, Char.isUpper, Char.isLower, Bool.or_eq_true, Bool.and_eq_true,
      decide_eq_true_eq, ge_iff_le, UInt32.le_def, BitVec.le_def]
    have h' : (65 ≤ c.val.toBitVec.toNat ∧ c.val.toBitVec.toNat ≤ 90) ∨
        (97 ≤ c.val.toBitVec.toNat ∧ c.val.toBitVec.toNat ≤ 122) := h
    rcases h' with ⟨h1, h2⟩ | ⟨h1, h2⟩
    · left; constructor <;> simp <;> omega
    · right; constructor <;> simp <;> omega
  refine ⟨by omega, ?_, ?_, ?_, ?_, ?_⟩
  · simp [sfKeep, Char.isAlphanum, halpha]
  · simp only [Char.isWhitespace, Bool.or_eq_false_iff, decide_eq_false_iff_not]
    refine ⟨⟨⟨?_, ?_⟩, ?_⟩, ?_⟩ <;> exact hne _ (by decide)
  · simp only [stripDotUnd, Bool.or_eq_false_iff]
    constructor <;> exact beq_eq_false_iff_ne.mpr (hne _ (by decide))
  · exact hne _ (by decide)
  · exact hne _ (by decide)

/-- A character whose python lower() lands in the letters of the allowed
extensions is itself an ascii letter with the above survival facts. -/
theorem good_of_toLower_mem {c : Char}
    (h : Char.toLower c ∈ (['p', 'd', 'f', 't', 'x', 'o', 'c'] : List Char)) :
    c.toNat < 128 ∧ sfKeep c = true ∧ c.isWhitespace = false ∧ stripDotUnd c = false ∧
      c ≠ '/' ∧ c ≠ '.' := by
  by_cases hc : 65 ≤ c.toNat ∧ c.toNat ≤ 90
  · exact ascii_letter_facts (Or.inl hc)
  · have hcc : Char.toLower c = c := by
      simp only [Char.toLower]
      exact if_neg (fun hh => hc ⟨hh.1, hh.2⟩)
    rw [hcc] at h
    fin_cases h <;> exact ascii_letter_facts (Or.inr (by decide))

/-- The head of a dropWhile result fails the predicate. -/
theorem head_dropWhile_false {p : Char → Bool} :
    ∀ {l : List Char} {x : Char} {xs : List Char}, l.dropWhile p = x :: xs → p x = false := by
  intro l
  induction l with
  | nil => intro x xs h; simp [List.dropWhile] at h
  | cons c t ih =>
    intro x xs h
    rw [List.dropWhile_cons] at h
    split at h
    · exact ih h
    · cases h
      next hp => exact Bool.not_eq_true _ |>.mp (by simpa using hp)

/-- A string containing a dot splits as a prefix, the last dot, and its
extension. -/
theorem ext_decomp {s : String} (h : '.' ∈ s.data) :
    ∃ pre, s.data = pre ++ '.' :: (extAfterLastDot s).data := by
  have hsplit := List.takeWhile_append_dropWhile (fun c => c != '.') s.data.reverse
  set T := s.data.reverse.takeWhile (fun c => c != '.') with hT
  set D := s.data.reverse.dropWhile (fun c => c != '.') with hD
  have hDne : D ≠ [] := by
    intro he
    rw [he, List.append_nil] at hsplit
    have hmem : '.' ∈ s.data.reverse := List.mem_reverse.mpr h
    rw [← hsplit, hT] at hmem
    have hh := List.mem_takeWhile_imp hmem
    simp at hh
  obtain ⟨c0, D', hDc⟩ := List.exists_cons_of_ne_nil hDne
  have hc0 : c0 = '.' := by
    have hx := head_dropWhile_false (p := fun c => c != '.') (hD ▸ hDc)
    simpa using hx
  subst hc0
  refine ⟨D'.reverse, ?_⟩
  have hs2 : s.data = D.reverse ++ T.reverse := by
    have hx := congrArg List.reverse hsplit
    simpa [List.reverse_append] using hx.symm
  rw [hs2, hDc]
  simp [extAfterLastDot]

/-- secure_filename applied to a name whose extension consists of
filter-surviving characters: either the whole prefix is stripped away and
the dot with it, or the sanitized name still ends in dot-extension. -/
theorem sf_data_cases (pre E : List Char)
    (hEfacts : ∀ c ∈ E, c.toNat < 128 ∧ sfKeep c = true ∧ c.isWhitespace = false ∧
      stripDotUnd c = false ∧ c ≠ '/' ∧ c ≠ '.')
    (hEne : E ≠ []) :
    (secureFilename (String.mk (pre ++ '.' :: E))).data = E ∨
    ∃ w, (secureFilename (String.mk (pre ++ '.' :: E))).data = w ++ '.' :: E := by
  have hfE1 : E.filter (fun c => c.toNat < 128) = E :=
    List.filter_eq_self.mpr (fun c hc => decide_eq_true (hEfacts c hc).1)
  have h1 : (pre ++ '.' :: E).filter (fun c => c.toNat < 128) =
      pre.filter (fun c => c.toNat < 128) ++ '.' :: E := by
    rw [List.filter_append, List.filter_cons_of_pos (by decide), hfE1]
  have h2 : (pre.filter (fun c => c.toNat < 128) ++ '.' :: E).map
        (fun c => if c == '/' then ' ' else c) =
      (pre.filter (fun c => c.toNat < 128)).map (fun c => if c == '/' then ' ' else c) ++
        '.' :: E := by
    rw [List.map_append, List.map_cons]
    congr 2
    exact map_id_of (fun c hc => by
      simp [beq_eq_false_iff_ne.mpr (hEfacts c hc).2.2.2.2.1])
  have hynws : ∀ c ∈ ('.' :: E), c.isWhitespace = false := by
    intro c hc
    rcases List.mem_cons.mp hc with rfl | hc
    · decide
    · exact (hEfacts c hc).2.2.1
  obtain ⟨w3, h3⟩ := intercalate_splitWs_suffix hynws (by simp)
    ((pre.filter (fun c => c.toNat < 128)).map (fun c => if c == '/' then ' ' else c)) []
  have hfE4 : E.filter sfKeep = E :=
    List.filter_eq_self.mpr (fun c hc => (hEfacts c hc).2.1)
  have h4 : (w3 ++ '.' :: E).filter sfKeep = w3.filter sfKeep ++ '.' :: E := by
    rw [List.filter_append, List.filter_cons_of_pos (by decide), hfE4]
  have hsd : ∀ c ∈ E, stripDotUnd c = false := fun c hc => (hEfacts c hc).2.2.2.1
  have hEdrop : E.dropWhile stripDotUnd = E := by
    obtain ⟨e0, E', hEc⟩ := List.exists_cons_of_ne_nil hEne
    rw [hEc, List.dropWhile_cons, hsd e0 (by rw [hEc]; exact List.mem_cons_self _ _)]
    simp
  have hdotE : ('.' :: E).dropWhile stripDotUnd = E := by
    rw [List.dropWhile_cons]
    simp only [show stripDotUnd '.' = true from by decide, if_true]
    exact hEdrop
  simp only [secureFilename]
  rw [h1, h2, h3, h4, List.dropWhile_append]
  by_cases hw : ((w3.filter sfKeep).dropWhile stripDotUnd).isEmpty = true
  · rw [if_pos hw, hdotE]
    left
    simpa using rstrip_noop_suffix (z := []) hEne hsd
  · rw [if_neg hw]
    right
    refine ⟨(w3.filter sfKeep).dropWhile stripDotUnd, ?_⟩
    have hrs := rstrip_noop_suffix (z := ((w3.filter sfKeep).dropWhile stripDotUnd) ++ ['.'])
      hEne hsd
    simpa [List.append_assoc] using hrs

/-- Past the allow-list gate, sanitization either loses the dot entirely
(all of the name before the extension was stripped) or preserves the
original extension verbatim as the sanitized name's extension. -/
theorem sf_ext_preserved (fn : String) (hal : allowed_file fn = true) :
    '.' ∉ (secureFilename fn).data ∨
    ('.' ∈ (secureFilename fn).data ∧
      (extAfterLastDot (secureFilename fn)).data = (extAfterLastDot fn).data) := by
  rw [allowed_file, Bool.and_eq_true] at hal
  obtain ⟨hdotfn, hmem4⟩ := hal
  have hdotfn' : '.' ∈ fn.data := by simpa using hdotfn
  have hmem4' : lowerStr (extAfterLastDot fn) ∈ ALLOWED_EXTENSIONS := by simpa using hmem4
  have hmapE : (extAfterLastDot fn).data.map Char.toLower = ['p', 'd', 'f'] ∨
      (extAfterLastDot fn).data.map Char.toLower = ['t', 'x', 't'] ∨
      (extAfterLastDot fn).data.map Char.toLower = ['d', 'o', 'c'] ∨
      (extAfterLastDot fn).data.map Char.toLower = ['d', 'o', 'c', 'x'] := by
    simp only [ALLOWED_EXTENSIONS, List.mem_cons, List.not_mem_nil, or_false] at hmem4'
    rcases hmem4' with h | h | h | h
    · exact Or.inl (congrArg String.data h)
    · exact Or.inr (Or.inl (congrArg String.data h))
    · exact Or.inr (Or.inr (Or.inl (congrArg String.data h)))
    · exact Or.inr (Or.inr (Or.inr (congrArg String.data h)))
  have hsub : ∀ d ∈ (extAfterLastDot fn).data.map Char.toLower,
      d ∈ (['p', 'd', 'f', 't', 'x', 'o', 'c'] : List Char) := by
    rcases hmapE with h | h | h | h <;> rw [h] <;> (intro d hd; fin_cases hd <;> decide)
  have hEfacts : ∀ c ∈ (extAfterLastDot fn).data, c.toNat < 128 ∧ sfKeep c = true ∧
      c.isWhitespace = false ∧ stripDotUnd c = false ∧ c ≠ '/' ∧ c ≠ '.' :=
    fun c hc => good_of_toLower_mem (hsub _ (List.mem_map_of_mem _ hc))
  have hEne : (extAfterLastDot fn).data ≠ [] := by
    intro he
    rcases hmapE with h | h | h | h <;> rw [he] at h <;> simp at h
  obtain ⟨pre, hpre⟩ := ext_decomp hdotfn'
  have hfneta : String.mk fn.data = fn := rfl
  have hcases := sf_data_cases pre (extAfterLastDot fn).data hEfacts hEne
  rw [← hpre, hfneta] at hcases
  rcases hcases with hcase | ⟨w, hcase⟩
  · left
    rw [hcase]
    intro hmem
    exact (hEfacts '.' hmem).2.2.2.2.2 rfl
  · right
    constructor
    · rw [hcase]
      exact List.mem_append.mpr (Or.inr (List.mem_cons_self _ _))
    · have hEnd : ∀ c ∈ (extAfterLastDot fn).data, (c != '.') = true :=
        fun c hc => bne_iff_ne.mpr (hEfacts c hc).2.2.2.2.2
      have hx : extAfterLastDot (secureFilename fn) =
          extAfterLastDot (String.mk (w ++ '.' :: (extAfterLastDot fn).data)) := by
        have hmk : secureFilename fn =
            String.mk (w ++ '.' :: (extAfterLastDot fn).data) := by
          have hm := congrArg String.mk hcase
          simpa using hm
        rw [hmk]
      rw [hx, ext_of_suffix hEnd]

/-- C6 (counterexample): the claim fails as stated.  A png upload never
reaches the image OCR strategy: allowed_file only admits pdf, txt, doc
and docx, so scan.png is rejected as file-type-not-allowed before any
dispatch. -/
theorem png_never_reaches_ocr_counterexample :
    upload_file true ("scan.png") true = (ExtractOutcome.notAllowed, []) ∧
    (upload_file true ("scan.png") true).1 ≠ ExtractOutcome.imageText :=
  ⟨rfl, by decide⟩

/-- C6 (amended): extraction dispatch is gated by the allow-list
{pdf, txt, doc, docx} applied to the original filename.  A filename
failing the gate — including every png, jpg and jpeg — is rejected as
file-type-not-allowed without invoking any strategy, so the image OCR
branch is unreachable for every input; past the gate, the sanitized name
either loses its dot (everything before the extension was stripped, e.g.
a name like dot-txt), in which case the out-of-try extension lookup
faults with the saved file left on disk, or keeps the original extension:
pdf invokes the pdf strategy, docx the docx strategy, and txt and doc
yield the unsupported-type error without invoking a strategy. -/
theorem dispatch_gated_by_allow_list (fn : String) (ok : Bool) :
    (allowed_file fn = false → fn ≠ "" →
      upload_file true fn ok = (ExtractOutcome.notAllowed, [])) ∧
    (lowerStr (extAfterLastDot fn) = "png" ∨ lowerStr (extAfterLastDot fn) = "jpg" ∨
        lowerStr (extAfterLastDot fn) = "jpeg" →
      upload_file true fn ok = (ExtractOutcome.notAllowed, [])) ∧
    (upload_file true fn ok).1 ≠ ExtractOutcome.imageText ∧
    (allowed_file fn = true → '.' ∉ (secureFilename fn).data →
      upload_file true fn ok = (ExtractOutcome.internalFault, [secureFilename fn])) ∧
    (allowed_file fn = true → '.' ∈ (secureFilename fn).data →
      lowerStr (extAfterLastDot fn) = "pdf" →
      upload_file true fn ok =
        if ok then (ExtractOutcome.pdfText, [])
        else (ExtractOutcome.extractionFault, [secureFilename fn])) ∧
    (allowed_file fn = true → '.' ∈ (secureFilename fn).data →
      lowerStr (extAfterLastDot fn) = "docx" →
      upload_file true fn ok =
        if ok then (ExtractOutcome.docxText, [])
        else (ExtractOutcome.extractionFault, [secureFilename fn])) ∧
    (allowed_file fn = true → '.' ∈ (secureFilename fn).data →
      (lowerStr (extAfterLastDot fn) = "txt" ∨ lowerStr (extAfterLastDot fn) = "doc") →
      upload_file true fn ok = (ExtractOutcome.unsupportedType, [secureFilename fn])) := by
  have hempty : allowed_file "" = false := by decide
  have hnotallowed : allowed_file fn = false → fn ≠ "" →
      upload_file true fn ok = (ExtractOutcome.notAllowed, []) := by
    intro hal hfn
    have hfb : (fn == "") = false := beq_eq_false_iff_ne.mpr hfn
    simp [upload_file, hfb, hal]
  have hfn_of_al : allowed_file fn = true → fn ≠ "" := by
    intro hal he
    rw [he, hempty] at hal
    cases hal
  have hdotless : allowed_file fn = true → '.' ∉ (secureFilename fn).data →
      upload_file true fn ok = (ExtractOutcome.internalFault, [secureFilename fn]) := by
    intro hal hnd
    have hfb : (fn == "") = false := beq_eq_false_iff_ne.mpr (hfn_of_al hal)
    have hcont : (secureFilename fn).data.contains '.' = false := by
      simpa using hnd
    simp [upload_file, hfb, hal, hcont, hnd]
  have hpdfSec : allowed_file fn = true → '.' ∈ (secureFilename fn).data →
      lowerStr (extAfterLastDot (secureFilename fn)) = "pdf" →
      upload_file true fn ok =
        if ok then (ExtractOutcome.pdfText, [])
        else (ExtractOutcome.extractionFault, [secureFilename fn]) := by
    intro hal hdot hext
    have hfb : (fn == "") = false := beq_eq_false_iff_ne.mpr (hfn_of_al hal)
    simp [upload_file, hfb, hal, hdot, hext]
  have hdocxSec : allowed_file fn = true → '.' ∈ (secureFilename fn).data →
      lowerStr (extAfterLastDot (secureFilename fn)) = "docx" →
      upload_file true fn ok =
        if ok then (ExtractOutcome.docxText, [])
        else (ExtractOutcome.extractionFault, [secureFilename fn]) := by
    intro hal hdot hext
    have hfb : (fn == "") = false := beq_eq_false_iff_ne.mpr (hfn_of_al hal)
    simp [upload_file, hfb, hal, hdot, hext]
  have hothSec : allowed_file fn = true → '.' ∈ (secureFilename fn).data →
      lowerStr (extAfterLastDot (secureFilename fn)) ≠ "pdf" →
      lowerStr (extAfterLastDot (secureFilename fn)) ≠ "docx" →
      lowerStr (extAfterLastDot (secureFilename fn)) ≠ "png" →
      lowerStr (extAfterLastDot (secureFilename fn)) ≠ "jpg" →
      lowerStr (extAfterLastDot (secureFilename fn)) ≠ "jpeg" →
      upload_file true fn ok = (ExtractOutcome.unsupportedType, [secureFilename fn]) := by
    intro hal hdot h1 h2 h3 h4 h5
    have hfb : (fn == "") = false := beq_eq_false_iff_ne.mpr (hfn_of_al hal)
    simp [upload_file, hfb, hal, hdot, beq_eq_false_iff_ne.mpr h1,
      beq_eq_false_iff_ne.mpr h2, beq_eq_false_iff_ne.mpr h3,
      beq_eq_false_iff_ne.mpr h4, beq_eq_false_iff_ne.mpr h5]
  have htrans : allowed_file fn = true → '.' ∈ (secureFilename fn).data →
      lowerStr (extAfterLastDot (secureFilename fn)) = lowerStr (extAfterLastDot fn) := by
    intro hal hdot
    rcases sf_ext_preserved fn hal with hnd | ⟨_, hpres⟩
    · exact absurd hdot hnd
    · simp [lowerStr, hpres]
  have hmem : allowed_file fn = true →
      (lowerStr (extAfterLastDot fn) = "pdf" ∨ lowerStr (extAfterLastDot fn) = "txt" ∨
       lowerStr (extAfterLastDot fn) = "doc" ∨ lowerStr (extAfterLastDot fn) = "docx") := by
    intro hal
    rw [allowed_file, Bool.and_eq_true] at hal
    have hm := hal.2
    simpa [ALLOWED_EXTENSIONS] using hm
  refine ⟨hnotallowed, ?_, ?_, hdotless, ?_, ?_, ?_⟩
  · intro hext
    have hal : allowed_file fn = false := by
      rw [allowed_file]
      have hx : ALLOWED_EXTENSIONS.contains (lowerStr (extAfterLastDot fn)) = false := by
        rcases hext with h | h | h <;> rw [h] <;> decide
      rw [hx, Bool.and_false]
    have hfn : fn ≠ "" := by
      intro e
      subst e
      rcases hext with h | h | h <;> exact absurd h (by decide)
    exact hnotallowed hal hfn
  · by_cases hfe : fn = ""
    · subst hfe
      simp [upload_file]
    · by_cases hal : allowed_file fn = true
      · rcases sf_ext_preserved fn hal with hnd | ⟨hdot, _⟩
        · rw [hdotless hal hnd]
          simp
        · have hsec := htrans hal hdot
          rcases hmem hal with h | h | h | h
          · rw [hpdfSec hal hdot (hsec.trans h)]
            split_ifs <;> simp
          · rw [hothSec hal hdot (by rw [hsec.trans h]; decide) (by rw [hsec.trans h]; decide)
              (by rw [hsec.trans h]; decide) (by rw [hsec.trans h]; decide)
              (by rw [hsec.trans h]; decide)]
            simp
          · rw [hothSec hal hdot (by rw [hsec.trans h]; decide) (by rw [hsec.trans h]; decide)
              (by rw [hsec.trans h]; decide) (by rw [hsec.trans h]; decide)
              (by rw [hsec.trans h]; decide)]
            simp
          · rw [hdocxSec hal hdot (hsec.trans h)]
            split_ifs <;> simp
      · have hal' : allowed_file fn = false := by
          revert hal
          cases allowed_file fn <;> simp
        rw [hnotallowed hal' hfe]
        simp
  · intro hal hdot hext
    exact hpdfSec hal hdot ((htrans hal hdot).trans hext)
  · intro hal hdot hext
    exact hdocxSec hal hdot ((htrans hal hdot).trans hext)
  · intro hal hdot hor
    have hsec := htrans hal hdot
    rcases hor with h | h
    · exact hothSec hal hdot (by rw [hsec.trans h]; decide) (by rw [hsec.trans h]; decide)
        (by rw [hsec.trans h]; decide) (by rw [hsec.trans h]; decide)
        (by rw [hsec.trans h]; decide)
    · exact hothSec hal hdot (by rw [hsec.trans h]; decide) (by rw [hsec.trans h]; decide)
        (by rw [hsec.trans h]; decide) (by rw [hsec.trans h]; decide)
        (by rw [hsec.trans h]; decide)

/-- C6 (witness): the amended claim evaluated concretely — photo.jpeg is
refused by the gate (no OCR), notes.txt passes the gate and hits the
unsupported-type error, and the dot-stripped name .txt hits the
internal-fault path. -/
theorem dispatch_gated_by_allow_list_witness :
    upload_file true ("photo.jpeg") true = (ExtractOutcome.notAllowed, []) ∧
    upload_file true ("notes.txt") false = (ExtractOutcome.unsupportedType, ["notes.txt"]) ∧
    upload_file true (".txt") true = (ExtractOutcome.internalFault, ["txt"]) :=
  ⟨(dispatch_gated_by_allow_list ("photo.jpeg") true).2.1 (Or.inr (Or.inr rfl)),
    (dispatch_gated_by_allow_list ("notes.txt") false).2.2.2.2.2.2 rfl (by decide)
      (Or.inl rfl),
    (dispatch_gated_by_allow_list (".txt") true).2.2.2.1 rfl (by decide)⟩

/-! ## Claim C8 -/

/-- C8 (counterexample): the claim fails as stated.  Two exit paths leave
the saved temporary file on disk: an allow-listed but undispatchable file
(notes.txt hits the unsupported-type return, which runs before the
removal) and a strategy fault on a.pdf (the except branch returns without
removing). -/
theorem temp_file_leak_counterexample :
    upload_file true ("notes.txt") true = (ExtractOutcome.unsupportedType, ["notes.txt"]) ∧
    upload_file true ("a.pdf") false = (ExtractOutcome.extractionFault, ["a.pdf"]) :=
  ⟨rfl, rfl⟩

/-- C8 (amended): the temporary file written for extraction is removed
only on the successful-strategy exit; on the unsupported-type exit, on a
strategy fault and on the pre-dispatch internal fault it is left under
the upload folder. -/
theorem temp_file_removed_only_on_success (fn : String) (ok : Bool) :
    ((upload_file true fn ok).1 = ExtractOutcome.pdfText ∨
     (upload_file true fn ok).1 = ExtractOutcome.docxText ∨
     (upload_file true fn ok).1 = ExtractOutcome.imageText →
      (upload_file true fn ok).2 = []) ∧
    ((upload_file true fn ok).1 = ExtractOutcome.unsupportedType ∨
     (upload_file true fn ok).1 = ExtractOutcome.extractionFault ∨
     (upload_file true fn ok).1 = ExtractOutcome.internalFault →
      (upload_file true fn ok).2 = [secureFilename fn]) := by
  simp only [upload_file]
  split_ifs <;> simp_all

/-- C8 (witness): the amended claim evaluated at notes.txt, whose
unsupported-type exit leaves the saved file behind. -/
theorem temp_file_removed_only_on_success_witness :
    (upload_file true ("notes.txt") true).2 = [secureFilename ("notes.txt")] :=
  (temp_file_removed_only_on_success ("notes.txt") true).2 (Or.inl rfl)

/-! ## Claim C7 -/

/-- C7 (confirmed): for a valid (non-empty after stripping) repository
name not yet used by either owner, creating the same (name, owner) pair
twice yields one 201 and then one 409 that leaves the state unchanged,
while creating the same name for a distinct owner succeeds. -/
theorem duplicate_repo_name_conflict
    (db : DB) (name u1 u2 : String)
    (hname : pyStrip name ≠ "")
    (hu : u1 ≠ u2)
    (hfresh : ∀ r ∈ db.repos, r.name = pyStrip name → r.user_id ≠ u1 ∧ r.user_id ≠ u2) :
    (create_repository u1 db name).1 = Resp.created201 ∧
    (create_repository u1 (create_repository u1 db name).2 name).1 = Resp.conflict409 ∧
    (create_repository u1 (create_repository u1 db name).2 name).2 =
      (create_repository u1 db name).2 ∧
    (create_repository u2 (create_repository u1 db name).2 name).1 = Resp.created201 := by
  have hnb : (pyStrip name == "") = false := beq_eq_false_iff_ne.mpr hname
  have hany1 : db.repos.any
      (fun r => r.name == pyStrip name && r.user_id == u1) = false := by
    rw [List.any_eq_false]
    intro r hr
    simp only [Bool.and_eq_true, beq_iff_eq, not_and]
    intro he
    exact (hfresh r hr he).1
  have h1 : create_repository u1 db name =
      (Resp.created201,
        { db with repos := db.repos ++
            [{ id := freshRepoId db, name := pyStrip name, user_id := u1 }] }) := by
    unfold create_repository
    rw [if_neg (by simp [hnb]), if_neg (by simp [hany1])]
  set db1 : DB :=
    { db with repos := db.repos ++
        [{ id := freshRepoId db, name := pyStrip name, user_id := u1 }] } with hdb1
  have hany2 : db1.repos.any
      (fun r => r.name == pyStrip name && r.user_id == u1) = true := by
    rw [List.any_eq_true]
    refine ⟨{ id := freshRepoId db, name := pyStrip name, user_id := u1 }, ?_, by simp⟩
    simp [hdb1]
  have h2 : create_repository u1 db1 name = (Resp.conflict409, db1) := by
    unfold create_repository
    rw [if_neg (by simp [hnb]), if_pos (by simp [hany2])]
  have hany3 : db1.repos.any
      (fun r => r.name == pyStrip name && r.user_id == u2) = false := by
    rw [List.any_eq_false]
    intro r hr
    simp only [hdb1, List.mem_append, List.mem_singleton] at hr
    simp only [Bool.and_eq_true, beq_iff_eq, not_and]
    intro he
    rcases hr with hr | hr
    · exact (hfresh r hr he).2
    · subst hr
      intro e
      exact hu e
  have h3 : (create_repository u2 db1 name).1 = Resp.created201 := by
    unfold create_repository
    rw [if_neg (by simp [hnb]), if_neg (by simp [hany3])]
  rw [h1]
  exact ⟨rfl, by rw [h2], by rw [h2], h3⟩

/-- C7 (witness): the concrete scenario from the spec — create Thesis for
u1 (201), again for u1 (409, unchanged), then Thesis for u2 (201). -/
theorem duplicate_repo_name_conflict_witness :
    (create_repository ("u1") { repos := [], papers := [], files := [] } ("Thesis")).1 =
      Resp.created201 ∧
    (create_repository ("u1")
      (create_repository ("u1") { repos := [], papers := [], files := [] } ("Thesis")).2
      ("Thesis")).1 = Resp.conflict409 ∧
    (create_repository ("u1")
      (create_repository ("u1") { repos := [], papers := [], files := [] } ("Thesis")).2
      ("Thesis")).2 =
      (create_repository ("u1") { repos := [], papers := [], files := [] } ("Thesis")).2 ∧
    (create_repository ("u2")
      (create_repository ("u1") { repos := [], papers := [], files := [] } ("Thesis")).2
      ("Thesis")).1 = Resp.created201 :=
  duplicate_repo_name_conflict { repos := [], papers := [], files := [] }
    ("Thesis") ("u1") ("u2") (by decide) (by decide) (by simp)

/-! ## Claim C9 -/

/-- Filtering a paper list preserves the per-paper invariant. -/
theorem all_lpsOk_filter {l : List Paper} (h : l.all lpsOk = true) (pred : Paper → Bool) :
    (l.filter pred).all lpsOk = true := by
  rw [List.all_eq_true] at *
  intro x hx
  exact h x (List.mem_filter.mp hx).1

/-- Replacing one row by an invariant-satisfying row preserves the
per-paper invariant. -/
theorem all_lpsOk_commit {l : List Paper} (h : l.all lpsOk = true)
    (pid : Nat) (p : Paper) (hp : lpsOk p = true) :
    (l.map (fun q => if q.id == pid then p else q)).all lpsOk = true := by
  rw [List.all_eq_true] at *
  intro x hx
  rcases List.mem_map.mp hx with ⟨q, hq, rfl⟩
  split
  · exact hp
  · exact h q hq

/-- C9 (counterexample): the claim fails as stated.  Updating paper 1 with
last_page_seen -3 succeeds with 200 and stores the negative integer,
violating the non-negativity invariant. -/
theorem negative_page_stored_counterexample :
    api_paper_detail_put ("u1")
      { repos := [{ id := 1, name := "R", user_id := "u1" }],
        papers := [{ id := 1, title := "x", original_filename := "x.pdf",
                     filepath := "1/a_x.pdf", notes := none,
                     last_opened := none, last_page_seen := some 0, repository_id := 1 }],
        files := ["1/a_x.pdf"] }
      1 none (some (JVal.jstr ("-3"))) =
    (Resp.ok200,
      { repos := [{ id := 1, name := "R", user_id := "u1" }],
        papers := [{ id := 1, title := "x", original_filename := "x.pdf",
                     filepath := "1/a_x.pdf", notes := none,
                     last_opened := none, last_page_seen := some (-3), repository_id := 1 }],
        files := ["1/a_x.pdf"] }) ∧
    lpsInvB
      { repos := [{ id := 1, name := "R", user_id := "u1" }],
        papers := [{ id := 1, title := "x", original_filename := "x.pdf",
                     filepath := "1/a_x.pdf", notes := none,
                     last_opened := none, last_page_seen := some (-3), repository_id := 1 }],
        files := ["1/a_x.pdf"] } = false :=
  ⟨rfl, rfl⟩

/-- C9 (amended): every paper's last-page-seen is absent or an integer;
creation initializes it to zero and all operations except a paper update
with a negative supplied value preserve non-negativity — the update
stores exactly the parsed integer, so it preserves the invariant only
when the parsed value is non-negative (or the field is null or absent),
and a negative supplied value breaks it. -/
theorem lps_nonneg_preserved_except_negative_update
    (caller : String) (db : DB) (hinv : lpsInvB db = true) :
    (∀ name, lpsInvB (create_repository caller db name).2 = true) ∧
    (∀ rid, lpsInvB (get_repository caller db rid).2 = true) ∧
    (∀ rid, lpsInvB (api_delete_repository caller db rid).2 = true) ∧
    (∀ rid, lpsInvB (delete_repository caller db rid).2 = true) ∧
    (∀ pid, lpsInvB (api_delete_paper caller db pid).2 = true) ∧
    (∀ now pid, lpsInvB (api_paper_detail_get caller now db pid).2 = true) ∧
    (∀ rid fn title ts sOk cOk,
      lpsInvB (api_upload_paper caller db rid fn title ts sOk cOk).2 = true) ∧
    (∀ pid notesF, lpsInvB (api_paper_detail_put caller db pid notesF none).2 = true) ∧
    (∀ pid notesF,
      lpsInvB (api_paper_detail_put caller db pid notesF (some JVal.null)).2 = true) ∧
    (∀ pid notesF v n, pyIntOfJVal v = some n → 0 ≤ n →
      lpsInvB (api_paper_detail_put caller db pid notesF (some v)).2 = true) := by
  have hmem : ∀ p ∈ db.papers, lpsOk p = true := List.all_eq_true.mp hinv
  have hnotes : ∀ (paper : Paper) (notesF : Option (Option String)),
      lpsOk (match notesF with
             | some v => { paper with notes := v }
             | none => paper) = lpsOk paper := by
    intro paper notesF
    cases notesF <;> rfl
  refine ⟨?_, ?_, ?_, ?_, ?_, ?_, ?_, ?_, ?_, ?_⟩
  · intro name
    simp only [create_repository]
    split_ifs <;> exact hinv
  · intro rid
    unfold get_repository
    split <;> exact hinv
  · intro rid
    unfold api_delete_repository
    split
    · exact hinv
    · exact all_lpsOk_filter hinv _
  · intro rid
    unfold delete_repository
    split
    · exact hinv
    · split_ifs
      · exact hinv
      · exact all_lpsOk_filter hinv _
  · intro pid
    unfold api_delete_paper
    split
    · exact hinv
    · exact all_lpsOk_filter hinv _
  · intro now pid
    unfold api_paper_detail_get
    split
    · exact hinv
    · rename_i paper hf
      exact all_lpsOk_commit hinv pid _ (hmem paper (List.mem_of_find?_eq_some hf))
  · intro rid fn title ts sOk cOk
    simp only [api_upload_paper]
    split
    · exact hinv
    · have hall : db.papers.all lpsOk = true := hinv
      split_ifs <;>
        first
        | exact hinv
        | (show (db.papers ++ _).all lpsOk = true
           rw [List.all_append, hall]
           rfl)
  · intro pid notesF
    unfold api_paper_detail_put
    split
    · exact hinv
    · rename_i paper hf
      exact all_lpsOk_commit hinv pid _
        ((hnotes paper notesF).trans (hmem paper (List.mem_of_find?_eq_some hf)))
  · intro pid notesF
    unfold api_paper_detail_put
    split
    · exact hinv
    · exact all_lpsOk_commit hinv pid _ rfl
  · intro pid notesF v n hv hn
    unfold api_paper_detail_put
    split
    · exact hinv
    · rename_i paper hf
      cases v with
      | null => exact all_lpsOk_commit hinv pid _ rfl
      | jstr s =>
        rw [pyIntOfJVal] at hv
        simp only [pyIntOfJVal, hv]
        exact all_lpsOk_commit hinv pid _ (by simp [lpsOk, hn])
      | jint m =>
        rw [pyIntOfJVal] at hv
        injection hv with hv
        subst hv
        simp only [pyIntOfJVal]
        exact all_lpsOk_commit hinv pid _ (by simp [lpsOk, hn])

/-- C9 (witness): the amended claim evaluated at a one-paper state and an
update that stores the non-negative page 7. -/
theorem lps_nonneg_preserved_except_negative_update_witness :
    lpsInvB (api_paper_detail_put ("u1")
      { repos := [{ id := 1, name := "R", user_id := "u1" }],
        papers := [{ id := 1, title := "x", original_filename := "x.pdf",
                     filepath := "1/a_x.pdf", notes := none,
                     last_opened := none, last_page_seen := some 0, repository_id := 1 }],
        files := ["1/a_x.pdf"] }
      1 none (some (JVal.jstr ("7")))).2 = true :=
  ((lps_nonneg_preserved_except_negative_update "u1"
    { repos := [{ id := 1, name := "R", user_id := "u1" }],
      papers := [{ id := 1, title := "x", original_filename := "x.pdf",
                   filepath := "1/a_x.pdf", notes := none,
                   last_opened := none, last_page_seen := some 0, repository_id := 1 }],
      files := ["1/a_x.pdf"] }
    rfl).2.2.2.2.2.2.2.2.2) 1 none (JVal.jstr ("7")) 7 rfl (by decide)

/-! ## Claim C10 -/

/-- C10 (confirmed): for every per-entity operation other than the
owner-checked repository DELETE route — getting a repository, uploading a
paper, getting a paper, updating a paper and deleting a paper — the
authenticated caller identity supplied by the auth decorator is never
consulted: two runs differing only in the caller produce the same
response and the same state. -/
theorem per_entity_routes_ignore_caller
    (c1 c2 : String) (db : DB) (rid pid now : Nat) (fn title ts : String)
    (sOk cOk : Bool) (notesF : Option (Option String)) (lpsF : Option JVal) :
    get_repository c1 db rid = get_repository c2 db rid ∧
    api_upload_paper c1 db rid fn title ts sOk cOk =
      api_upload_paper c2 db rid fn title ts sOk cOk ∧
    api_paper_detail_get c1 now db pid = api_paper_detail_get c2 now db pid ∧
    api_paper_detail_put c1 db pid notesF lpsF = api_paper_detail_put c2 db pid notesF lpsF ∧
    api_delete_paper c1 db pid = api_delete_paper c2 db pid :=
  ⟨rfl, rfl, rfl, rfl, rfl⟩

end ScholAuxil
